import Mathlib

/-!
Verification of the Co-Scientist orchestration core.

This file gives a shallow embedding, in Lean 4, of the pure bookkeeping and
text-extraction logic of the Co-Scientist repository
(`backend/agents/ranking_agent.py`, `reflection_agent.py`, `proximity_agent.py`,
`supervisor_agent.py`, `backend/workflows/co_scientist.py`,
`backend/components/context_memory.py`), and proves or refutes the testable
properties stated in the specification.

Modelling conventions:
* Python strings are modelled as `List Char` (named `Text` below); the Python
  operations `split`, `strip`, `lower`, `upper`, `startswith`, `in`
  are embedded as executable Lean functions on `Text`.
* Python `dict`s keyed by hypothesis id are modelled as insertion-ordered
  association lists (`RTable`), with `dictGet`/`dictSet`/`dictContains`
  mirroring `d.get(k, default)`, `d[k] = v` and `k in d`.
* Python floats are modelled as rationals (`ℚ`).  The one floating-point
  operation with no rational counterpart, `10 ** x` in the Elo expected-score
  formula, is passed in as an explicit parameter `tenPow : ℚ → ℚ`; every
  theorem below quantifies over it, so nothing proved depends on its value.
* Calls to the external LLM are modelled as oracle parameters
  (`debate`, `simText`) returning the raw response text.
* The Python `random` module is modelled by a stream of naturals
  (`rand : List Nat`): `random.randrange(n)` consumes the head of the stream
  modulo `n`, and `random.shuffle` is the Fisher–Yates loop CPython uses,
  consuming one stream element per swap.  Theorems quantify over the stream.
-/

/-! ## Text model: Python string operations over `List Char` -/

abbrev Text := List Char

/-- Split on a single separator character, mirroring Python `s.split(c)`
(`splitOnChar c []` is `[[]]`, just as `"".split(c) == ['']`). -/
def splitOnChar (sep : Char) : Text → List Text
  | [] => [[]]
  | c :: rest =>
    let r := splitOnChar sep rest
    if c = sep then [] :: r
    else
      match r with
      | [] => [[c]]
      | l :: ls => (c :: l) :: ls

/-- Recursion core of `splitOnSeq`.  The fuel argument (one unit per consumed
character, initially the text length) only makes the recursion structural;
with enough fuel the zero-fuel branch is unreachable. -/
def splitOnSeqGo (sep : Text) : Nat → Text → List Text
  | _, [] => [[]]
  | 0, cs => [cs]
  | fuel + 1, c :: rest =>
    if !sep.isEmpty && sep.isPrefixOf (c :: rest) then
      [] :: splitOnSeqGo sep fuel (rest.drop (sep.length - 1))
    else
      match splitOnSeqGo sep fuel rest with
      | [] => [[c]]
      | l :: ls => (c :: l) :: ls

/-- Split on a non-empty separator sequence, mirroring Python `s.split(sep)`
for a multi-character `sep` (left-to-right, non-overlapping). -/
def splitOnSeq (sep : Text) (cs : Text) : List Text :=
  splitOnSeqGo sep cs.length cs

/-- Python `s.strip()`: drop leading and trailing whitespace. -/
def trimText (cs : Text) : Text :=
  ((cs.dropWhile Char.isWhitespace).reverse.dropWhile Char.isWhitespace).reverse

/-- Python `s.lower()`. -/
def toLowerText (cs : Text) : Text := cs.map Char.toLower

/-- Python `s.upper()`. -/
def toUpperText (cs : Text) : Text := cs.map Char.toUpper

/-- Python substring containment `pat in s`. -/
def containsSeq (pat : Text) : Text → Bool
  | [] => pat.isEmpty
  | c :: rest => pat.isPrefixOf (c :: rest) || containsSeq pat rest

/-- Digits of a decimal literal to a natural number. -/
def digitsToNat (cs : Text) : Nat :=
  cs.foldl (fun n c => n * 10 + (c.toNat - '0'.toNat)) 0

/-- Model of Python `int(s)` on the plain decimal-literal forms the agents
produce: surrounding whitespace, an optional sign, then one or more digits
(Python's digit-group underscores are not modelled — no claim involves them).
Any other input raises `ValueError` in Python, modelled as `none`. -/
def parseIntPy (s : Text) : Option ℤ :=
  let cs := trimText s
  let signAndDigits : ℤ × Text :=
    match cs with
    | '-' :: rest => (-1, rest)
    | '+' :: rest => (1, rest)
    | _ => (1, cs)
  let sign := signAndDigits.1
  let ds := signAndDigits.2
  if !ds.isEmpty && ds.all Char.isDigit then some (sign * digitsToNat ds) else none

/-- Model of Python `float(s)` on the plain decimal-literal forms the agents
produce: surrounding whitespace, an optional sign, then `digits`,
`digits.digits`, `digits.` or `.digits` (exponents, `inf` and `nan` are not
modelled — no claim involves them).  Other inputs raise `ValueError` in
Python, modelled as `none`. -/
def parseFloatPy (s : Text) : Option ℚ :=
  let cs := trimText s
  let signAndBody : ℚ × Text :=
    match cs with
    | '-' :: rest => (-1, rest)
    | '+' :: rest => (1, rest)
    | _ => (1, cs)
  let sign := signAndBody.1
  let body := signAndBody.2
  let intPart := body.takeWhile Char.isDigit
  let rest := body.dropWhile Char.isDigit
  match rest with
  | [] =>
    if intPart.isEmpty then none
    else some (sign * (digitsToNat intPart : ℚ))
  | '.' :: frac =>
    if frac.all Char.isDigit && !(intPart.isEmpty && frac.isEmpty) then
      some (sign * ((digitsToNat intPart : ℚ) +
        (digitsToNat frac : ℚ) / (10 ^ frac.length)))
    else none
  | _ => none

/-! ## Data model -/

/-- A hypothesis record.  The Python code stores hypotheses as dicts; the
fields read by the orchestration core are `id`, `title`, `description` and
(for evolved children) `parent_id`. -/
structure Hyp where
  id : String
  title : String := ""
  description : String := ""
  parentId : Option String := none
deriving DecidableEq, Repr

/-- The rating table: a Python dict keyed by hypothesis id, modelled as an
insertion-ordered association list (Python dicts preserve insertion order). -/
abbrev RTable := List (String × ℚ)

/-- Python `d.get(k, default)`. -/
def dictGet (r : RTable) (k : String) (d : ℚ) : ℚ :=
  match r.find? (fun p => p.1 == k) with
  | some p => p.2
  | none => d

/-- Python `k in d`. -/
def dictContains (r : RTable) (k : String) : Bool :=
  r.any (fun p => p.1 == k)

/-- Python `d[k] = v`: overwrite in place if the key exists (keeping its
position), otherwise append. -/
def dictSet : RTable → String → ℚ → RTable
  | [], k, v => [(k, v)]
  | p :: rest, k, v =>
    if p.1 == k then (k, v) :: rest else p :: dictSet rest k v

/-! ## Tournament Engine (`RankingAgent`) -/

/-- One line of `RankingAgent._parse_debate_result`: a line starting with
`WINNER:` sets the winner when the token after the colon is `A` or `B`;
a line starting with `CONFIDENCE:` sets the confidence to the parsed value
divided by 100 when it parses (`try/except` modelled by the `Option` match);
every other line leaves the state unchanged. -/
def debateLineStep (acc : Option Text × ℚ) (line : Text) : Option Text × ℚ :=
  if "WINNER:".data.isPrefixOf line then
    let ws := toUpperText (trimText ((splitOnChar ':' line).getD 1 []))
    if ws = "A".data ∨ ws = "B".data then (some ws, acc.2) else acc
  else if "CONFIDENCE:".data.isPrefixOf line then
    match parseFloatPy (trimText ((splitOnChar ':' line).getD 1 [])) with
    | some q => (acc.1, q / 100)
    | none => acc
  else acc

/-- Embeds `RankingAgent._parse_debate_result`: scan the response lines with
`debateLineStep`.  Initial state: no winner, confidence `0.5`. -/
def parseDebateResult (content : Text) : Option Text × ℚ :=
  (splitOnChar '\n' content).foldl debateLineStep (none, 1/2)

/-- The Elo expected score for the first player,
`1 / (1 + 10 ** ((rating_b - rating_a) / 400))`, with the floating-point
power operation abstracted as `tenPow`. -/
def expScore (tenPow : ℚ → ℚ) (ra rb : ℚ) : ℚ :=
  1 / (1 + tenPow ((rb - ra) / 400))

/-- Embeds `RankingAgent._update_elo_ratings`: confidence-weighted Elo update
of the two ratings, base K-factor 32, default rating 1500 for a missing key. -/
def updateElo (tenPow : ℚ → ℚ) (r : RTable) (idA idB : String)
    (aWon : Bool) (confidence : ℚ) : RTable :=
  let ratingA := dictGet r idA 1500
  let ratingB := dictGet r idB 1500
  let expA := expScore tenPow ratingA ratingB
  let expB := 1 - expA
  let adjustedK := 32 * confidence
  if aWon then
    dictSet (dictSet r idA (ratingA + adjustedK * (1 - expA)))
      idB (ratingB + adjustedK * (0 - expB))
  else
    dictSet (dictSet r idA (ratingA + adjustedK * (0 - expA)))
      idB (ratingB + adjustedK * (1 - expB))

/-- One iteration of the match loop in `RankingAgent.actor`: parse the debate
response; when a winner was parsed, update the ratings and count the match;
otherwise leave the accumulator untouched. -/
def tournamentStep (tenPow : ℚ → ℚ) (acc : RTable × Nat) (pair : Hyp × Hyp)
    (content : Text) : RTable × Nat :=
  let parsed := parseDebateResult content
  match parsed.1 with
  | some w =>
    (updateElo tenPow acc.1 pair.1.id pair.2.id (w = "A".data) parsed.2,
      acc.2 + 1)
  | none => acc

/-- Rating-table seeding loop of `RankingAgent.actor`: every hypothesis not
yet in the table gets the initial rating 1500. -/
def seedRankings (hyps : List Hyp) (r : RTable) : RTable :=
  hyps.foldl (fun r h => if dictContains r h.id then r else dictSet r h.id 1500) r

/-- Strategy 1 of `_select_tournament_pairs`: adjacent pairs
(`for i in range(0, len(hypotheses)-1, 2)`). -/
def adjacentPairs : List Hyp → List (Hyp × Hyp)
  | a :: b :: rest => (a, b) :: adjacentPairs rest
  | _ => []

/-- Strategy 2 of `_select_tournament_pairs`: repeatedly pop two elements at
`random.randrange` positions while at least two remain.  The random stream is
consumed two entries per draw; the remaining stream is returned for the later
shuffle.  The fuel argument (initially the list length) only bounds the
recursion; the loop exits via the length test exactly as in the source. -/
def drawRandomPairsGo : Nat → List Hyp → List Nat →
    List (Hyp × Hyp) × List Nat
  | 0, _, rand => ([], rand)
  | fuel + 1, l, rand =>
    if 2 ≤ l.length then
      let i := rand.headD 0 % l.length
      let rand1 := rand.tailD []
      match l[i]? with
      | some a =>
        let l1 := l.eraseIdx i
        let j := rand1.headD 0 % l1.length
        let rand2 := rand1.tailD []
        match l1[j]? with
        | some b =>
          let r := drawRandomPairsGo fuel (l1.eraseIdx j) rand2
          ((a, b) :: r.1, r.2)
        | none => ([], rand2)
      | none => ([], rand1)
    else ([], rand)

/-- Strategy 2 entry point. -/
def drawRandomPairs (l : List Hyp) (rand : List Nat) :
    List (Hyp × Hyp) × List Nat :=
  drawRandomPairsGo l.length l rand

/-- Swap two positions of a list (no-op when an index is out of range). -/
def swapList (l : List (Hyp × Hyp)) (i j : Nat) : List (Hyp × Hyp) :=
  match l[i]?, l[j]? with
  | some a, some b => (l.set i b).set j a
  | _, _ => l

/-- CPython `random.shuffle`: Fisher–Yates,
`for i in reversed(range(1, len(x))): j = randrange(i+1); swap x[i], x[j]`. -/
def fyShuffleGo (l : List (Hyp × Hyp)) (i : Nat) (rand : List Nat) :
    List (Hyp × Hyp) :=
  match i with
  | 0 => l
  | k + 1 =>
    fyShuffleGo (swapList l (k + 1) (rand.headD 0 % (k + 2))) k (rand.tailD [])

/-- Shuffle entry point. -/
def fyShuffle (l : List (Hyp × Hyp)) (rand : List Nat) : List (Hyp × Hyp) :=
  fyShuffleGo l (l.length - 1) rand

/-- Embeds `RankingAgent._select_tournament_pairs`: sort by current rating
(Python's stable ascending sort, modelled by the stable `insertionSort`,
which agrees with every stable sort on a total preorder key), concatenate the
three strategies (adjacent pairs, random pairs, top-half versus reversed
bottom half), then shuffle. -/
def selectTournamentPairs (hyps : List Hyp) (rankings : RTable)
    (rand : List Nat) : List (Hyp × Hyp) :=
  let sorted := hyps.insertionSort
    (fun a b => dictGet rankings a.id 1500 ≤ dictGet rankings b.id 1500)
  let pairs1 := adjacentPairs sorted
  let drawn := drawRandomPairs sorted rand
  let n := sorted.length / 2
  let pairs3 := List.zip (sorted.take n) (sorted.drop n).reverse
  fyShuffle (pairs1 ++ drawn.1 ++ pairs3) drawn.2

/-- Result of one tournament round (`RankingAgent.actor`). -/
structure TournamentResult where
  rankings : RTable
  totalMatches : Nat
  matchesPlayed : Nat
deriving DecidableEq, Repr

/-- Embeds `RankingAgent.actor`: seed missing ratings at 1500, select pairs,
run at most `max_matches = 10` debates through the oracle, update ratings and
count a match only when a winner was parsed, and add the played count to the
running total. -/
def rankingActor (tenPow : ℚ → ℚ) (hyps : List Hyp) (tstateRankings : RTable)
    (totalMatches0 : Nat) (debate : Hyp → Hyp → Text) (rand : List Nat) :
    TournamentResult :=
  let rankings := seedRankings hyps tstateRankings
  let pairs := selectTournamentPairs hyps rankings rand
  let r := (pairs.take 10).foldl
    (fun acc p => tournamentStep tenPow acc p (debate p.1 p.2)) (rankings, 0)
  { rankings := r.1, totalMatches := totalMatches0 + r.2, matchesPlayed := r.2 }

/-! ## Text Extraction Layer: review parsing (`ReflectionAgent._parse_reviews`) -/

/-- Per-criterion scores of a review.  The Python dict is initialized with all
five criteria mapped to `0` before any text is scanned. -/
structure Scores where
  scientificMerit : ℤ := 0
  novelty : ℤ := 0
  testability : ℤ := 0
  impact : ℤ := 0
  limitations : ℤ := 0
deriving DecidableEq, Repr

/-- The criterion names as they are searched for in the text
(`criterion.replace('_', ' ')`), in dict-insertion order. -/
def criterionNames : List Text :=
  ["scientific merit".data, "novelty".data, "testability".data,
   "impact".data, "limitations".data]

/-- Read a criterion score by its searched-for name. -/
def getScore (s : Scores) (name : Text) : ℤ :=
  if name = "scientific merit".data then s.scientificMerit
  else if name = "novelty".data then s.novelty
  else if name = "testability".data then s.testability
  else if name = "impact".data then s.impact
  else s.limitations

/-- Write a criterion score by its searched-for name. -/
def setScore (s : Scores) (name : Text) (v : ℤ) : Scores :=
  if name = "scientific merit".data then { s with scientificMerit := v }
  else if name = "novelty".data then { s with novelty := v }
  else if name = "testability".data then { s with testability := v }
  else if name = "impact".data then { s with impact := v }
  else { s with limitations := v }

/-- Sum of the five criterion scores. -/
def sumScores (s : Scores) : ℤ :=
  s.scientificMerit + s.novelty + s.testability + s.impact + s.limitations

/-- The inner loop of the score extraction: lowercase the line and, for each
criterion whose spaced name occurs in the line together with a colon, parse
`int(line.split(':')[1].strip().split('/')[0])` and clamp it into 1–10
(`min(10, max(1, score))`); a `ValueError`/`IndexError` leaves the criterion
untouched (`except ... continue`). -/
def scanScoresLine (s : Scores) (line0 : Text) : Scores :=
  let line := toLowerText line0
  criterionNames.foldl
    (fun s name =>
      if containsSeq name line && containsSeq ":".data line then
        match parseIntPy
            ((splitOnChar '/' (trimText ((splitOnChar ':' line).getD 1 []))).getD 0 []) with
        | some v => setScore s name (min 10 (max 1 v))
        | none => s
      else s)
    s

/-- A review record.  The Python dict also carries a fresh `uuid4` id and the
placeholder timestamp/source strings `"now"` / `"reflection_agent"`; the uuid
(external nondeterminism) is not modelled, the placeholders are kept. -/
structure Review where
  hypothesisId : String
  scores : Scores
  overallScore : ℚ
  recommendation : Text
  fullReview : Text
  createdAt : Text := "now".data
  source : Text := "reflection_agent".data
deriving DecidableEq, Repr

/-- Embeds `ReflectionAgent._parse_reviews`: split the response on the word
`"Hypothesis"`, keep the stripped non-empty sections, pair each section with
the hypothesis of the same index (stopping at the shorter list, as the
`i >= len(self.hypotheses): break` guard does), scan each section's lines for
criterion scores, and derive recommendation and overall score. -/
def parseReviews (content : Text) (hyps : List Hyp) : List Review :=
  let sections := ((splitOnSeq "Hypothesis".data content).map trimText).filter
    (fun s => !s.isEmpty)
  (sections.zip hyps).map (fun sh =>
    let section_ := sh.1
    let h := sh.2
    let scores := (splitOnChar '\n' section_).foldl scanScoresLine {}
    let sl := toLowerText section_
    let recommendation :=
      if containsSeq "accept".data sl then "Accept".data
      else if containsSeq "reject".data sl then "Reject".data
      else "Revise".data
    { hypothesisId := h.id
      scores := scores
      overallScore := (sumScores scores : ℚ) / 5
      recommendation := recommendation
      fullReview := section_ })

/-! ## Similarity Graph Builder (`ProximityAgent`) -/

/-- A similarity edge.  The Python dict also carries a fresh `uuid4` id and a
placeholder timestamp; the uuid (external nondeterminism) is not modelled. -/
structure Edge where
  source : String
  target : String
  similarity : ℚ
  createdAt : Text := "now".data
deriving DecidableEq, Repr

/-- The duplicate test used twice in the source: an edge already connects the
unordered pair `{a, b}`. -/
def edgeMatches (e : Edge) (a b : String) : Bool :=
  (e.source == a && e.target == b) || (e.source == b && e.target == a)

/-- Some edge of the list connects the unordered pair `{a, b}`. -/
def edgeExists (edges : List Edge) (a b : String) : Bool :=
  edges.any (fun e => edgeMatches e a b)

/-- An edge list contains two entries for the same unordered pair. -/
def hasDupPair : List Edge → Bool
  | [] => false
  | e :: rest => rest.any (fun f => edgeMatches f e.source e.target) || hasDupPair rest

/-- Number of existing edges touching a hypothesis id (the `edge_counts`
dict built in `_select_comparison_pairs`). -/
def edgeDegree (edges : List Edge) (id : String) : Nat :=
  (edges.filter (fun e => e.source == id)).length +
    (edges.filter (fun e => e.target == id)).length

/-- The nested pair loop of `_select_comparison_pairs`: for each hypothesis,
pair it with every later one that has no existing edge to it. -/
def comparisonPairsGo (edges : List Edge) : List Hyp → List (Hyp × Hyp)
  | [] => []
  | h :: rest =>
    ((rest.filter (fun h2 => !edgeExists edges h.id h2.id)).map (fun h2 => (h, h2)))
      ++ comparisonPairsGo edges rest

/-- Embeds `ProximityAgent._select_comparison_pairs`: sort hypotheses by
ascending edge-degree (Python's stable sort, modelled by the stable
`insertionSort`), then nested pairing of each hypothesis with all later ones
lacking an edge. -/
def selectComparisonPairs (hyps : List Hyp) (edges : List Edge) :
    List (Hyp × Hyp) :=
  let sorted := hyps.insertionSort
    (fun a b => edgeDegree edges a.id ≤ edgeDegree edges b.id)
  comparisonPairsGo edges sorted

/-- Embeds `ProximityAgent._parse_similarity_result`: the first line starting
with `OVERALL_SIMILARITY:` is parsed as a float and clamped into `[0, 1]`;
a parse failure aborts the scan via the surrounding `try/except` and yields
`None`, as does the absence of any such line. -/
def parseSimilarityResult (content : Text) : Option ℚ :=
  match (splitOnChar '\n' content).find?
      (fun line => "OVERALL_SIMILARITY:".data.isPrefixOf line) with
  | some line =>
    match parseFloatPy (trimText ((splitOnChar ':' line).getD 1 [])) with
    | some score => some (min 1 (max 0 score))
    | none => none
  | none => none

/-- Embeds the match loop of `ProximityAgent.actor`: run over the first
`max_comparisons = 20` selected pairs; skip a pair when the *starting* edge
list already connects it; otherwise query the oracle, and when a similarity
parses, append a new edge and count the comparison.  Returns the appended
edge list and the comparison count. -/
def proximityActor (hyps : List Hyp) (edges : List Edge)
    (simText : Hyp → Hyp → Text) : List Edge × Nat :=
  let pairs := selectComparisonPairs hyps edges
  let r := (pairs.take 20).foldl
    (fun (acc : List Edge × Nat) p =>
      if edgeExists edges p.1.id p.2.id then acc
      else
        match parseSimilarityResult (simText p.1 p.2) with
        | some s =>
          (acc.1 ++ [{ source := p.1.id, target := p.2.id, similarity := s }],
            acc.2 + 1)
        | none => acc)
    ([], 0)
  (edges ++ r.1, r.2)

/-! ## Step Scheduler (`SupervisorAgent._parse_task_queue`) -/

/-- The keyword table of `_parse_task_queue`, in dict-insertion order. -/
def agentKeywords : List (String × List Text) :=
  [("generation", ["generation".data, "generate".data, "create".data,
     "new ideas".data, "new hypotheses".data]),
   ("reflection", ["reflection".data, "review".data, "evaluate".data]),
   ("ranking", ["ranking".data, "tournament".data, "prioritize".data,
     "rank".data]),
   ("evolution", ["evolution".data, "refine".data, "improve".data,
     "iterate".data]),
   ("proximity", ["proximity".data, "cluster".data, "similarity".data,
     "graph".data]),
   ("meta_review", ["meta".data, "meta-review".data, "synthesize".data,
     "overview".data, "summarize".data])]

/-- The keyword scan of `_parse_task_queue`: for each lowercased line, append
the first agent type one of whose keywords occurs in the line (the inner
`break` makes it the first match in table order). -/
def scanTasks (content : Text) : List String :=
  (splitOnChar '\n' (toLowerText content)).foldl
    (fun acc line =>
      match agentKeywords.find?
          (fun ak => ak.2.any (fun kw => containsSeq kw line)) with
      | some ak => acc ++ [ak.1]
      | none => acc)
    []

/-- The iteration-keyed fallback of `_parse_task_queue`, used when the keyword
scan found nothing. -/
def fallbackTasks (iteration : Nat) : List String :=
  if iteration = 0 then ["generation", "reflection", "ranking"]
  else if iteration % 5 = 0 then ["meta_review"]
  else if iteration % 3 = 0 then ["evolution", "reflection", "ranking", "proximity"]
  else if iteration % 3 = 1 then ["generation", "reflection", "ranking"]
  else ["proximity", "evolution", "reflection", "ranking"]

/-- Embeds `SupervisorAgent._parse_task_queue`: keyword scan, then the
iteration-keyed fallback when the scan found nothing, then the (dead in
practice) final guard re-instating the default queue. -/
def parseTaskQueue (iteration : Nat) (content : Text) : List String :=
  let tasks := scanTasks content
  let tasks := if tasks.isEmpty then fallbackTasks iteration else tasks
  if tasks.isEmpty then ["generation", "reflection", "ranking"] else tasks

/-! ## Orchestration: evolution-step replacement (`run_evolution_agent`) -/

/-- The rating-descending top slice taken by `run_evolution_agent`
(`sorted(..., reverse=True)[:3]`, rating default 0 for an unranked
hypothesis; CPython implements `reverse=True` as a stable descending sort,
modelled as the stable `insertionSort` with the flipped comparison). -/
def topByRating (hyps : List Hyp) (rankings : RTable) (n : Nat) : List Hyp :=
  (hyps.insertionSort
    (fun a b => dictGet rankings b.id 0 ≤ dictGet rankings a.id 0)).take n

/-- Embeds the replacement logic of `run_evolution_agent`: keep each existing
hypothesis whose id is referenced by no produced child's `parent_id`, then
append all produced children. -/
def evolveCombine (hyps evolved : List Hyp) : List Hyp :=
  (hyps.filter (fun h => !(evolved.map (fun e => e.parentId)).contains (some h.id)))
    ++ evolved

/-! ## Record Store (`ContextMemory`) -/

/-- Per-session statistics, all zero in a fresh envelope. -/
structure Stats where
  hypothesesGenerated : Nat := 0
  hypothesesReviewed : Nat := 0
  tournamentMatches : Nat := 0
  hypothesesEvolved : Nat := 0
deriving DecidableEq, Repr

/-- The memory envelope persisted by `ContextMemory` (the per-agent
`agent_states` diagnostic dicts, all empty in a fresh envelope, are not
modelled — no claim reads them).  `tournamentRankings` is the `rankings`
field of `tournament_state`; `proximityEdges` the `edges` field of
`proximity_graph`. -/
structure Memory where
  researchId : String
  createdAt : String
  updatedAt : String
  researchGoal : String := ""
  hypotheses : List Hyp := []
  reviews : List Review := []
  tournamentRankings : RTable := []
  proximityEdges : List Edge := []
  iterations : Nat := 0
  statistics : Stats := {}
deriving DecidableEq, Repr

/-- The default envelope written by `ContextMemory._init_memory`
(`now` stands for the `datetime.now().isoformat()` timestamps). -/
def initMemory (researchId now : String) : Memory :=
  { researchId := researchId, createdAt := now, updatedAt := now }

/-- Outcome of reading the backing JSON file: the `try/except` in
`_load_memory` distinguishes a missing file (`FileNotFoundError`), one whose
contents fail to parse (`json.JSONDecodeError`), and a successful parse. -/
inductive StoredFile where
  | missing
  | corrupt
  | valid (m : Memory)
deriving DecidableEq, Repr

/-- Embeds `ContextMemory._load_memory`: on a successful read return the
parsed envelope; on a missing or corrupt file, `_init_memory` writes the
default envelope and the re-read returns it.  The result is the loaded
envelope together with the file state after the call; no branch raises. -/
def loadMemory (f : StoredFile) (researchId now : String) :
    Memory × StoredFile :=
  match f with
  | .valid m => (m, .valid m)
  | .missing => (initMemory researchId now, .valid (initMemory researchId now))
  | .corrupt => (initMemory researchId now, .valid (initMemory researchId now))

/-! ## Helper lemmas about the dict model -/

theorem dictGet_dictSet_self (r : RTable) (k : String) (v d : ℚ) :
    dictGet (dictSet r k v) k d = v := by
  induction r with
  | nil => simp [dictSet, dictGet]
  | cons p rest ih =>
    by_cases h : p.1 = k
    · simp [dictSet, dictGet, h]
    · simpa [dictSet, dictGet, h] using ih

theorem dictGet_dictSet_ne (r : RTable) (k k' : String) (v d : ℚ)
    (h : k' ≠ k) : dictGet (dictSet r k v) k' d = dictGet r k' d := by
  induction r with
  | nil => simp [dictSet, dictGet, Ne.symm h]
  | cons p rest ih =>
    obtain ⟨pk, pv⟩ := p
    by_cases hp : pk = k
    · subst hp
      simp [dictSet, dictGet, Ne.symm h]
    · by_cases hp' : pk = k'
      · subst hp'
        simp [dictSet, dictGet, hp]
      · simpa [dictSet, dictGet, hp, hp'] using ih

theorem dictContains_dictSet_self (r : RTable) (k : String) (v : ℚ) :
    dictContains (dictSet r k v) k = true := by
  induction r with
  | nil => simp [dictSet, dictContains]
  | cons p rest ih =>
    by_cases h : p.1 = k
    · simp [dictSet, dictContains, h]
    · simpa [dictSet, dictContains, h] using ih

theorem dictContains_dictSet_mono (r : RTable) (k k' : String) (v : ℚ)
    (h : dictContains r k' = true) :
    dictContains (dictSet r k v) k' = true := by
  induction r with
  | nil => simp [dictContains] at h
  | cons p rest ih =>
    obtain ⟨pk, pv⟩ := p
    by_cases hp : pk = k
    · subst hp
      simp only [dictContains, List.any_cons, Bool.or_eq_true, beq_iff_eq] at h ⊢
      simpa [dictSet, dictContains] using h
    · simp only [dictContains, List.any_cons, Bool.or_eq_true, beq_iff_eq] at h
      rcases h with h' | h'
      · subst h'
        simp [dictSet, dictContains, hp]
      · have := ih (by simpa [dictContains] using h')
        simp only [dictSet, hp, beq_iff_eq, if_false, reduceIte, dictContains,
          List.any_cons, Bool.or_eq_true]
        right
        simpa [dictContains] using this

theorem length_dictSet_of_contains (r : RTable) (k : String) (v : ℚ)
    (h : dictContains r k = true) :
    (dictSet r k v).length = r.length := by
  induction r with
  | nil => simp [dictContains] at h
  | cons p rest ih =>
    by_cases hp : p.1 = k
    · simp [dictSet, hp]
    · rcases (by simpa [dictContains] using h : p.1 = k ∨ dictContains rest k = true) with h' | h'
      · exact absurd h' hp
      · simp [dictSet, hp, ih h']

/-! ## C4 — the Elo update is zero-sum -/

/-- C4: for ratings `ra`, `rb` present in the table and any confidence
`c ∈ [0, 1]`, a single Elo update changes the two ratings by exactly opposite
amounts, whichever side won (and for every value of the abstracted
floating-point power operation). -/
theorem elo_update_zero_sum
    (tenPow : ℚ → ℚ) (r : RTable) (a b : String) (ra rb c : ℚ) (aWon : Bool)
    (hab : a ≠ b)
    (hca : dictContains r a = true) (hcb : dictContains r b = true)
    (hra : dictGet r a 1500 = ra) (hrb : dictGet r b 1500 = rb)
    (hc0 : 0 ≤ c) (hc1 : c ≤ 1) :
    dictGet (updateElo tenPow r a b aWon c) a 1500 - ra
      = -(dictGet (updateElo tenPow r a b aWon c) b 1500 - rb) := by
  unfold updateElo
  cases aWon <;>
    simp only [Bool.false_eq_true, if_false, if_true, reduceIte] <;>
    rw [dictGet_dictSet_ne _ _ _ _ _ hab, dictGet_dictSet_self,
      dictGet_dictSet_self, hra, hrb] <;>
    ring

/-- Witness for C4: the zero-sum identity at a concrete two-entry table. -/
theorem elo_update_zero_sum_witness :
    dictGet (updateElo (fun _ => 1) [("x", 1600), ("y", 1400)] "x" "y" true (1/2)) "x" 1500 - 1600
      = -(dictGet (updateElo (fun _ => 1) [("x", 1600), ("y", 1400)] "x" "y" true (1/2)) "y" 1500 - 1400) :=
  elo_update_zero_sum (fun _ => 1) [("x", 1600), ("y", 1400)] "x" "y" 1600 1400 (1/2) true
    (by decide) (by decide) (by decide) (by decide) (by decide)
    (by norm_num) (by norm_num)

/-! ## C8 — the Record Store reinitializes on a missing or corrupt file -/

/-- C8: loading from a missing or corrupt backing file returns the fresh
default envelope — empty hypotheses, reviews and edges, empty rating table,
iteration counter 0 — and, the embedding being total, no error is raised. -/
theorem store_reinitializes_on_bad_file (researchId now : String) :
    (loadMemory .corrupt researchId now).1 = initMemory researchId now
    ∧ (loadMemory .missing researchId now).1 = initMemory researchId now
    ∧ (loadMemory .corrupt researchId now).1.iterations = 0
    ∧ (loadMemory .corrupt researchId now).1.hypotheses = []
    ∧ (loadMemory .corrupt researchId now).1.reviews = []
    ∧ (loadMemory .corrupt researchId now).1.proximityEdges = []
    ∧ (loadMemory .corrupt researchId now).1.tournamentRankings = []
    ∧ (loadMemory .missing researchId now).1.iterations = 0 :=
  ⟨rfl, rfl, rfl, rfl, rfl, rfl, rfl, rfl⟩

/-! ## C9 — a match without a parseable winner is a no-op -/

/-- Shared helper: when the debate text parses to no winner, the match-loop
step returns its accumulator unchanged. -/
theorem tournamentStep_no_winner (tenPow : ℚ → ℚ) (acc : RTable × Nat)
    (pair : Hyp × Hyp) (content : Text)
    (h : (parseDebateResult content).1 = none) :
    tournamentStep tenPow acc pair content = acc := by
  simp [tournamentStep, h]

/-- C9: a tournament match whose debate text yields no parseable winner
leaves both ratings exactly unchanged and does not increment the
matches-played counter (and, the embedding being total, raises no error). -/
theorem unparseable_winner_is_noop (tenPow : ℚ → ℚ) (rankings : RTable)
    (played : Nat) (pair : Hyp × Hyp) (content : Text)
    (h : (parseDebateResult content).1 = none) :
    tournamentStep tenPow (rankings, played) pair content = (rankings, played) :=
  tournamentStep_no_winner tenPow (rankings, played) pair content h

/-- Witness for C9: a concrete unparseable debate response. -/
theorem unparseable_winner_is_noop_witness :
    tournamentStep (fun _ => 1) ([("h1", (1500 : ℚ))], 0)
      ({ id := "h1" }, { id := "h2" }) "no structured output".data
      = ([("h1", (1500 : ℚ))], 0) :=
  unparseable_winner_is_noop (fun _ => 1) [("h1", (1500 : ℚ))] 0
    ({ id := "h1" }, { id := "h2" }) "no structured output".data (by decide)

/-! ## C7 — deterministic scheduler fallback -/

/-- Shared helper: the fallback queue is never empty. -/
theorem fallbackTasks_ne_nil (i : Nat) : fallbackTasks i ≠ [] := by
  unfold fallbackTasks
  split_ifs <;> simp

/-- C7: whenever the keyword scan of the free-text plan finds no step, the
task queue is the deterministic function of the iteration counter given by
the fallback policy (iteration 0; multiples of 5; the three mixes keyed by
iteration mod 3), and the returned queue is never empty for any input. -/
theorem scheduler_fallback_policy :
    (∀ (i : Nat) (content : Text), scanTasks content = [] →
      parseTaskQueue i content =
        if i = 0 then ["generation", "reflection", "ranking"]
        else if i % 5 = 0 then ["meta_review"]
        else if i % 3 = 0 then ["evolution", "reflection", "ranking", "proximity"]
        else if i % 3 = 1 then ["generation", "reflection", "ranking"]
        else ["proximity", "evolution", "reflection", "ranking"])
    ∧ (∀ (i : Nat) (content : Text), parseTaskQueue i content ≠ []) := by
  constructor
  · intro i content h
    unfold parseTaskQueue
    rw [h]
    simp only [List.isEmpty_nil, if_true]
    have hne : (fallbackTasks i).isEmpty = false := by
      cases hfe : (fallbackTasks i).isEmpty
      · rfl
      · exact absurd (List.isEmpty_iff.mp hfe) (fallbackTasks_ne_nil i)
    rw [hne]
    simp only [Bool.false_eq_true, if_false]
    rfl
  · intro i content
    unfold parseTaskQueue
    cases hsc : scanTasks content with
    | nil =>
      simp only [List.isEmpty_nil, if_true]
      have hne : (fallbackTasks i).isEmpty = false := by
        cases hfe : (fallbackTasks i).isEmpty
        · rfl
        · exact absurd (List.isEmpty_iff.mp hfe) (fallbackTasks_ne_nil i)
      rw [hne]
      simp only [Bool.false_eq_true, if_false]
      exact fallbackTasks_ne_nil i
    | cons t rest =>
      simp

/-- Witness for C7 at iteration 7 with an unparseable (empty) plan. -/
theorem scheduler_fallback_policy_witness :
    parseTaskQueue 7 [] = ["generation", "reflection", "ranking"] := by
  rw [scheduler_fallback_policy.1 7 [] (by decide)]
  decide

/-! ## C2 — debate-outcome extraction: winner enum, confidence bounds -/

/-- Shared helper: a single parse step only ever stores `A` or `B` as the
winner. -/
theorem debateLineStep_winner (acc : Option Text × ℚ) (line : Text)
    (hw : ∀ w, acc.1 = some w → w = "A".data ∨ w = "B".data) :
    ∀ w, (debateLineStep acc line).1 = some w → w = "A".data ∨ w = "B".data := by
  intro w h
  simp only [debateLineStep] at h
  by_cases h1 : "WINNER:".data.isPrefixOf line = true
  · rw [if_pos h1] at h
    by_cases h2 : toUpperText (trimText ((splitOnChar ':' line).getD 1 [])) = "A".data
        ∨ toUpperText (trimText ((splitOnChar ':' line).getD 1 [])) = "B".data
    · rw [if_pos h2] at h
      have hws : toUpperText (trimText ((splitOnChar ':' line).getD 1 [])) = w := by
        simpa using h
      rw [← hws]
      exact h2
    · rw [if_neg h2] at h
      exact hw w h
  · rw [if_neg h1] at h
    by_cases h3 : "CONFIDENCE:".data.isPrefixOf line = true
    · rw [if_pos h3] at h
      rcases hp : parseFloatPy (trimText ((splitOnChar ':' line).getD 1 [])) with _ | q
      · rw [hp] at h
        exact hw w h
      · rw [hp] at h
        exact hw w (by simpa using h)
    · rw [if_neg h3] at h
      exact hw w h

/-- Shared helper: the winner component of the full parse is `A` or `B` when
present. -/
theorem parseDebateResult_winner_enum (content : Text) :
    ∀ w, (parseDebateResult content).1 = some w →
      w = "A".data ∨ w = "B".data := by
  unfold parseDebateResult
  generalize splitOnChar '\n' content = lines
  have hgen : ∀ (lines : List Text) (acc : Option Text × ℚ),
      (∀ w, acc.1 = some w → w = "A".data ∨ w = "B".data) →
      ∀ w, (lines.foldl debateLineStep acc).1 = some w →
        w = "A".data ∨ w = "B".data := by
    intro lines
    induction lines with
    | nil => exact fun acc h => h
    | cons line rest ih =>
      intro acc h
      simpa using ih (debateLineStep acc line) (debateLineStep_winner acc line h)
  exact hgen lines (none, 1/2) (by simp)

/-- Shared helper: a single parse step keeps the confidence in `[0, 1]`
provided the line's `CONFIDENCE` value, when it parses, lies in `[0, 100]`. -/
theorem debateLineStep_conf_bounds (acc : Option Text × ℚ) (line : Text)
    (h0 : 0 ≤ acc.2) (h1 : acc.2 ≤ 1)
    (hline : "CONFIDENCE:".data.isPrefixOf line = true →
      ∀ q, parseFloatPy (trimText ((splitOnChar ':' line).getD 1 [])) = some q →
        0 ≤ q ∧ q ≤ 100) :
    0 ≤ (debateLineStep acc line).2 ∧ (debateLineStep acc line).2 ≤ 1 := by
  simp only [debateLineStep]
  by_cases hw : "WINNER:".data.isPrefixOf line = true
  · rw [if_pos hw]
    by_cases h2 : toUpperText (trimText ((splitOnChar ':' line).getD 1 [])) = "A".data
        ∨ toUpperText (trimText ((splitOnChar ':' line).getD 1 [])) = "B".data
    · rw [if_pos h2]
      exact ⟨h0, h1⟩
    · rw [if_neg h2]
      exact ⟨h0, h1⟩
  · rw [if_neg hw]
    by_cases hc : "CONFIDENCE:".data.isPrefixOf line = true
    · rw [if_pos hc]
      rcases hq : parseFloatPy (trimText ((splitOnChar ':' line).getD 1 [])) with _ | q
      · exact ⟨h0, h1⟩
      · obtain ⟨hq0, hq100⟩ := hline hc q hq
        refine ⟨by positivity, ?_⟩
        show q / 100 ≤ 1
        rw [div_le_one (by norm_num)]
        linarith
    · rw [if_neg hc]
      exact ⟨h0, h1⟩

/-- Shared helper: the confidence of the full parse stays in `[0, 1]` when
every parseable `CONFIDENCE` value of the text lies in `[0, 100]`. -/
theorem parseDebateResult_conf_bounds (content : Text)
    (hlines : ∀ line ∈ splitOnChar '\n' content,
      "CONFIDENCE:".data.isPrefixOf line = true →
      ∀ q, parseFloatPy (trimText ((splitOnChar ':' line).getD 1 [])) = some q →
        0 ≤ q ∧ q ≤ 100) :
    0 ≤ (parseDebateResult content).2 ∧ (parseDebateResult content).2 ≤ 1 := by
  unfold parseDebateResult
  have hgen : ∀ (lines : List Text) (acc : Option Text × ℚ),
      0 ≤ acc.2 → acc.2 ≤ 1 →
      (∀ line ∈ lines, "CONFIDENCE:".data.isPrefixOf line = true →
        ∀ q, parseFloatPy (trimText ((splitOnChar ':' line).getD 1 [])) = some q →
          0 ≤ q ∧ q ≤ 100) →
      0 ≤ (lines.foldl debateLineStep acc).2
        ∧ (lines.foldl debateLineStep acc).2 ≤ 1 := by
    intro lines
    induction lines with
    | nil => exact fun acc h0 h1 _ => ⟨h0, h1⟩
    | cons line rest ih =>
      intro acc h0 h1 hl
      have hstep := debateLineStep_conf_bounds acc line h0 h1
        (hl line (by simp))
      simpa using ih (debateLineStep acc line) hstep.1 hstep.2
        (fun l hm => hl l (by simp [hm]))
  exact hgen _ (none, 1/2) (by norm_num) (by norm_num) hlines

/-- C2 (amended): the extracted winner, when present, is always from the
two-way enum; the confidence is the parsed percentage divided by 100 with
*no* clamping — it lies in `[0, 1]` exactly when the text's parseable
`CONFIDENCE` values lie in `[0, 100]` (the default `0.5` otherwise), and an
out-of-range percentage passes through out of range. -/
theorem debate_winner_enum_and_conditional_conf_bounds (content : Text) :
    (∀ w, (parseDebateResult content).1 = some w →
      w = "A".data ∨ w = "B".data)
    ∧ ((∀ line ∈ splitOnChar '\n' content,
          "CONFIDENCE:".data.isPrefixOf line = true →
          ∀ q, parseFloatPy (trimText ((splitOnChar ':' line).getD 1 [])) = some q →
            0 ≤ q ∧ q ≤ 100) →
        0 ≤ (parseDebateResult content).2 ∧ (parseDebateResult content).2 ≤ 1) :=
  ⟨parseDebateResult_winner_enum content, parseDebateResult_conf_bounds content⟩

/-- Witness for C2 (amended) on a concrete debate text with no
`CONFIDENCE` line. -/
theorem debate_winner_enum_and_conditional_conf_bounds_witness :
    ("A".data = "A".data ∨ "A".data = "B".data)
    ∧ (0 ≤ (parseDebateResult "WINNER: A".data).2
        ∧ (parseDebateResult "WINNER: A".data).2 ≤ 1) :=
  ⟨(debate_winner_enum_and_conditional_conf_bounds "WINNER: A".data).1
      "A".data (by decide),
    (debate_winner_enum_and_conditional_conf_bounds "WINNER: A".data).2
      (by
        intro line hm hpre
        have hl : line = "WINNER: A".data := by
          have : splitOnChar '\n' "WINNER: A".data = ["WINNER: A".data] := by decide
          rw [this] at hm
          simpa using hm
        rw [hl] at hpre
        exact absurd hpre (by decide))⟩

/-- C2 counterexample: a `CONFIDENCE: 500` line yields confidence `5`, which
is outside `[0, 1]` — the parsed percentage is not clamped. -/
theorem debate_confidence_unclamped_cex :
    (parseDebateResult "WINNER: A\nCONFIDENCE: 500".data).1 = some "A".data
    ∧ (parseDebateResult "WINNER: A\nCONFIDENCE: 500".data).2 = 5
    ∧ ¬ ((parseDebateResult "WINNER: A\nCONFIDENCE: 500".data).2 ≤ 1) := by
  have h : parseDebateResult "WINNER: A\nCONFIDENCE: 500".data =
      (some "A".data, ((1 : ℚ) * ((digitsToNat "500".data : ℕ) : ℚ)) / 100) := rfl
  rw [h]
  have h2 : (digitsToNat "500".data : ℕ) = 500 := by decide
  rw [h2]
  norm_num

/-! ## C10 — valid winner without a parseable confidence line -/

/-- Shared helper: a line whose `CONFIDENCE` value does not parse (or which
is not a `CONFIDENCE` line at all) leaves the confidence untouched. -/
theorem debateLineStep_conf_unchanged (acc : Option Text × ℚ) (line : Text)
    (hline : "CONFIDENCE:".data.isPrefixOf line = true →
      parseFloatPy (trimText ((splitOnChar ':' line).getD 1 [])) = none) :
    (debateLineStep acc line).2 = acc.2 := by
  simp only [debateLineStep]
  by_cases hw : "WINNER:".data.isPrefixOf line = true
  · rw [if_pos hw]
    by_cases h2 : toUpperText (trimText ((splitOnChar ':' line).getD 1 [])) = "A".data
        ∨ toUpperText (trimText ((splitOnChar ':' line).getD 1 [])) = "B".data
    · rw [if_pos h2]
    · rw [if_neg h2]
  · rw [if_neg hw]
    by_cases hc : "CONFIDENCE:".data.isPrefixOf line = true
    · rw [if_pos hc, hline hc]
    · rw [if_neg hc]

/-- Shared helper: when no line of the text carries a parseable `CONFIDENCE`
value, the parsed confidence is the default `0.5`. -/
theorem parseDebateResult_conf_default (content : Text)
    (hnc : ∀ line ∈ splitOnChar '\n' content,
      "CONFIDENCE:".data.isPrefixOf line = true →
      parseFloatPy (trimText ((splitOnChar ':' line).getD 1 [])) = none) :
    (parseDebateResult content).2 = 1/2 := by
  unfold parseDebateResult
  have hgen : ∀ (lines : List Text) (acc : Option Text × ℚ),
      (∀ line ∈ lines, "CONFIDENCE:".data.isPrefixOf line = true →
        parseFloatPy (trimText ((splitOnChar ':' line).getD 1 [])) = none) →
      (lines.foldl debateLineStep acc).2 = acc.2 := by
    intro lines
    induction lines with
    | nil => exact fun _ _ => rfl
    | cons line rest ih =>
      intro acc hl
      have hstep := debateLineStep_conf_unchanged acc line (hl line (by simp))
      simpa [hstep] using ih (debateLineStep acc line)
        (fun l hm => hl l (by simp [hm]))
  exact hgen _ (none, 1/2) hnc

/-- C10: when the debate text has a valid `WINNER` token but no parseable
`CONFIDENCE` line, the outcome is not a no-result: the parse returns the
winner with the default confidence `0.5`, the match-loop step runs the rating
update at that confidence and counts the match, and at confidence `0.5` the
update applies an effective K-factor of `32 · 0.5 = 16`. -/
theorem winner_without_confidence_defaults (tenPow : ℚ → ℚ) (r : RTable)
    (played : Nat) (pair : Hyp × Hyp) (content : Text) (w : Text)
    (hw : (parseDebateResult content).1 = some w)
    (hnc : ∀ line ∈ splitOnChar '\n' content,
      "CONFIDENCE:".data.isPrefixOf line = true →
      parseFloatPy (trimText ((splitOnChar ':' line).getD 1 [])) = none) :
    parseDebateResult content = (some w, 1/2)
    ∧ tournamentStep tenPow (r, played) pair content
        = (updateElo tenPow r pair.1.id pair.2.id (w = "A".data) (1/2), played + 1)
    ∧ (∀ a b : String, a ≠ b →
        dictGet (updateElo tenPow r a b true (1/2)) a 1500
          = dictGet r a 1500
            + 16 * (1 - expScore tenPow (dictGet r a 1500) (dictGet r b 1500))
        ∧ dictGet (updateElo tenPow r a b false (1/2)) a 1500
          = dictGet r a 1500
            - 16 * expScore tenPow (dictGet r a 1500) (dictGet r b 1500)) := by
  have hconf := parseDebateResult_conf_default content hnc
  have hpair : parseDebateResult content = (some w, 1/2) := by
    rw [show parseDebateResult content
        = ((parseDebateResult content).1, (parseDebateResult content).2) from rfl,
      hw, hconf]
  refine ⟨hpair, ?_, ?_⟩
  · simp [tournamentStep, hpair]
  · intro a b hab
    constructor
    · unfold updateElo
      rw [if_pos rfl, dictGet_dictSet_ne _ _ _ _ _ hab, dictGet_dictSet_self]
      ring
    · unfold updateElo
      rw [if_neg (by simp), dictGet_dictSet_ne _ _ _ _ _ hab, dictGet_dictSet_self]
      ring

/-- Witness for C10 on the concrete text `WINNER: B` (no confidence line). -/
theorem winner_without_confidence_defaults_witness :
    parseDebateResult "WINNER: B".data = (some "B".data, 1/2)
    ∧ tournamentStep (fun _ => 1) ([], 0) ({ id := "a" }, { id := "b" })
        "WINNER: B".data
      = (updateElo (fun _ => 1) [] "a" "b" ("B".data = "A".data) (1/2), 1) := by
  have h := winner_without_confidence_defaults (fun _ => 1) [] 0
    ({ id := "a" }, { id := "b" }) "WINNER: B".data "B".data (by decide) (by decide)
  exact ⟨h.1, h.2.1⟩

/-! ## C3 — review score extraction: clamping and defaults -/

/-- A criterion score as produced by the extractor: either the untouched
initializer `0`, or a parsed value clamped into `1..10`. -/
def scoreClampedOrDefault (v : ℤ) : Prop :=
  v = 0 ∨ (1 ≤ v ∧ v ≤ 10)

/-- All five criterion scores are clamped-or-default. -/
def scoresOk (s : Scores) : Prop :=
  scoreClampedOrDefault s.scientificMerit ∧ scoreClampedOrDefault s.novelty
    ∧ scoreClampedOrDefault s.testability ∧ scoreClampedOrDefault s.impact
    ∧ scoreClampedOrDefault s.limitations

/-- Shared helper: writing a value in `1..10` preserves `scoresOk`. -/
theorem scoresOk_setScore (s : Scores) (name : Text) (v : ℤ)
    (h : scoresOk s) (hv : 1 ≤ v ∧ v ≤ 10) : scoresOk (setScore s name v) := by
  obtain ⟨h1, h2, h3, h4, h5⟩ := h
  unfold setScore
  split_ifs <;>
    exact ⟨by simp_all [scoreClampedOrDefault], by simp_all [scoreClampedOrDefault],
      by simp_all [scoreClampedOrDefault], by simp_all [scoreClampedOrDefault],
      by simp_all [scoreClampedOrDefault]⟩

/-- Shared helper: one line scan preserves `scoresOk`. -/
theorem scoresOk_scanScoresLine (s : Scores) (line : Text)
    (h : scoresOk s) : scoresOk (scanScoresLine s line) := by
  unfold scanScoresLine
  generalize criterionNames = names
  induction names generalizing s with
  | nil => exact h
  | cons name rest ih =>
    simp only [List.foldl_cons]
    apply ih
    by_cases hc : (containsSeq name (toLowerText line)
        && containsSeq ":".data (toLowerText line)) = true
    · rw [if_pos hc]
      rcases hp : parseIntPy ((splitOnChar '/'
          (trimText ((splitOnChar ':' (toLowerText line)).getD 1 []))).getD 0 []) with _ | v
      · exact h
      · exact scoresOk_setScore s name _ h
          ⟨le_min (by norm_num) (le_max_left 1 v), min_le_left 10 _⟩
    · rw [if_neg hc]
      exact h

/-- Shared helper: the line fold of the score extraction preserves
`scoresOk`. -/
theorem scoresOk_foldl_lines (lines : List Text) (s : Scores)
    (h : scoresOk s) : scoresOk (lines.foldl scanScoresLine s) := by
  induction lines generalizing s with
  | nil => exact h
  | cons line rest ih => exact ih _ (scoresOk_scanScoresLine s line h)

/-- C3 (amended): every review record the extractor produces has, for each of
the five criteria, either a parsed score clamped into the valid range `1..10`
or the untouched initializer `0` — a missing or unparseable score is left at
`0`, not raised to the range minimum `1`, and the record is still produced
(the extractor is total). -/
theorem review_scores_clamped_or_zero (content : Text) (hyps : List Hyp) :
    ∀ r ∈ parseReviews content hyps, scoresOk r.scores := by
  intro r hr
  unfold parseReviews at hr
  obtain ⟨sh, _, rfl⟩ := List.mem_map.mp hr
  exact scoresOk_foldl_lines _ {}
    ⟨Or.inl rfl, Or.inl rfl, Or.inl rfl, Or.inl rfl, Or.inl rfl⟩

/-- Witness for C3 (amended) on a concrete review text. -/
theorem review_scores_clamped_or_zero_witness :
    scoresOk (((parseReviews "Hypothesis 1:\nscientific merit: 8/10".data
        [{ id := "h1" }]).get ⟨0, by decide⟩).scores) :=
  review_scores_clamped_or_zero "Hypothesis 1:\nscientific merit: 8/10".data
    [{ id := "h1" }] _ (List.get_mem _ _ _)

/-- C3 counterexample: in a review text carrying only a `scientific merit`
score, the `novelty` criterion is missing, and the produced record assigns it
`0` — not the range minimum `1` claimed by the specification — while the
parsed criterion is clamped into range (here `8`). -/
theorem review_missing_score_defaults_zero_cex :
    ((parseReviews "Hypothesis 1:\nscientific merit: 8/10".data
        [{ id := "h1" }]).map (fun r => r.scores.novelty)) = [0]
    ∧ ((parseReviews "Hypothesis 1:\nscientific merit: 8/10".data
        [{ id := "h1" }]).map (fun r => r.scores.scientificMerit)) = [8]
    ∧ (0 : ℤ) ≠ 1 := by
  refine ⟨by decide, by decide, by decide⟩

/-! ## C6 — evolution step replaces parents, keeps everything else -/

/-- C6: after the evolution-step update, a record is in the active set iff it
is an original hypothesis referenced as parent by no produced child, or a
produced child; in particular every parent of a produced child is removed,
every child is present, and un-referenced hypotheses survive.  The second and
third conjuncts check the specification's concrete example: H1 rated 1600 and
H2 rated 1400 with cap 3 select [H1, H2], and two children of H1 leave
[H2, child1, child2]. -/
theorem evolution_replaces_parents :
    (∀ (hyps evolved : List Hyp) (x : Hyp),
      x ∈ evolveCombine hyps evolved ↔
        (x ∈ hyps ∧ ∀ e ∈ evolved, e.parentId ≠ some x.id) ∨ x ∈ evolved)
    ∧ topByRating [{ id := "H1" }, { id := "H2" }] [("H1", 1600), ("H2", 1400)] 3
        = [{ id := "H1" }, { id := "H2" }]
    ∧ evolveCombine [{ id := "H1" }, { id := "H2" }]
        [{ id := "C1", parentId := some "H1" }, { id := "C2", parentId := some "H1" }]
      = [{ id := "H2" }, { id := "C1", parentId := some "H1" },
          { id := "C2", parentId := some "H1" }] := by
  refine ⟨?_, by decide, by decide⟩
  intro hyps evolved x
  unfold evolveCombine
  simp only [List.mem_append, List.mem_filter, Bool.not_eq_true', List.contains,
    List.elem_eq_mem, decide_eq_false_iff_not, List.mem_map, not_exists, not_and]

/-! ## C1 — one tournament round over exactly two hypotheses -/

/-- Shared helper: seeding two distinct ids into an empty table. -/
theorem seedRankings_pair (h1 h2 : Hyp) (hne : h1.id ≠ h2.id) :
    seedRankings [h1, h2] [] = [(h1.id, 1500), (h2.id, 1500)] := by
  simp [seedRankings, dictContains, dictSet, hne]

/-- Shared helper: lookup of the first key of a two-entry table. -/
theorem dictGet_pair_fst (a b : String) (x y d : ℚ) :
    dictGet [(a, x), (b, y)] a d = x := by
  simp [dictGet]

/-- Shared helper: lookup of the second key of a two-entry table. -/
theorem dictGet_pair_snd (a b : String) (x y d : ℚ) (h : a ≠ b) :
    dictGet [(a, x), (b, y)] b d = y := by
  have hb : (a == b) = false := beq_eq_false_iff_ne.mpr h
  simp [dictGet, List.find?, hb]

/-- Shared helper: the rating sort leaves a two-element seeded list in
place (both ratings are 1500). -/
theorem sortedTwo (h1 h2 : Hyp) (hne : h1.id ≠ h2.id) :
    List.insertionSort
      (fun a b => dictGet [(h1.id, (1500 : ℚ)), (h2.id, 1500)] a.id 1500
        ≤ dictGet [(h1.id, (1500 : ℚ)), (h2.id, 1500)] b.id 1500) [h1, h2]
      = [h1, h2] := by
  have ha := dictGet_pair_fst h1.id h2.id (1500 : ℚ) 1500 1500
  have hb := dictGet_pair_snd h1.id h2.id (1500 : ℚ) 1500 1500 hne
  simp [List.insertionSort, List.orderedInsert, ha, hb]

/-- Shared helper: strategy 2 on a two-element list draws exactly the one
pair, in one of the two orders, whatever the random stream. -/
theorem drawRandomPairsGo_two (x y : Hyp) (rand : List Nat) :
    (drawRandomPairsGo 2 [x, y] rand).1 = [(x, y)]
      ∨ (drawRandomPairsGo 2 [x, y] rand).1 = [(y, x)] := by
  rcases Nat.mod_two_eq_zero_or_one (rand.headD 0) with h | h
  · left
    simp only [drawRandomPairsGo, List.length_cons, List.length_nil, Nat.reduceAdd]
    rw [h]
    simp [Nat.mod_one]
  · right
    simp only [drawRandomPairsGo, List.length_cons, List.length_nil, Nat.reduceAdd]
    rw [h]
    simp [Nat.mod_one]

/-- Shared helper: swapping preserves length. -/
theorem length_swapList (l : List (Hyp × Hyp)) (i j : Nat) :
    (swapList l i j).length = l.length := by
  unfold swapList
  split <;> simp

/-- Shared helper: swapping introduces no new elements. -/
theorem mem_swapList (l : List (Hyp × Hyp)) (i j : Nat) (x : Hyp × Hyp)
    (h : x ∈ swapList l i j) : x ∈ l := by
  unfold swapList at h
  split at h
  case _ a b hi hj =>
    rcases List.mem_or_eq_of_mem_set h with h' | rfl
    · rcases List.mem_or_eq_of_mem_set h' with h'' | rfl
      · exact h''
      · exact List.getElem?_mem hj
    · exact List.getElem?_mem hi
  case _ => exact h

/-- Shared helper: the Fisher–Yates loop preserves length. -/
theorem length_fyShuffleGo (i : Nat) :
    ∀ (l : List (Hyp × Hyp)) (rand : List Nat),
      (fyShuffleGo l i rand).length = l.length := by
  induction i with
  | zero => intro l rand; rfl
  | succ k ih =>
    intro l rand
    rw [fyShuffleGo, ih, length_swapList]

/-- Shared helper: the Fisher–Yates loop introduces no new elements. -/
theorem mem_fyShuffleGo (i : Nat) :
    ∀ (l : List (Hyp × Hyp)) (rand : List Nat) (x : Hyp × Hyp),
      x ∈ fyShuffleGo l i rand → x ∈ l := by
  induction i with
  | zero => intro l rand x h; exact h
  | succ k ih =>
    intro l rand x h
    exact mem_swapList _ _ _ _ (ih _ _ _ h)

/-- Shared helper: shuffling a three-element pair list yields three pairs
from the same three. -/
theorem fyShuffle_three (a b c : Hyp × Hyp) (s : List Nat) :
    (fyShuffle [a, b, c] s).length = 3
    ∧ ∀ p ∈ fyShuffle [a, b, c] s, p = a ∨ p = b ∨ p = c := by
  constructor
  · rw [fyShuffle, length_fyShuffleGo]
    rfl
  · intro p hp
    simpa using mem_fyShuffleGo _ _ _ _ hp

/-- Shared helper: shape of pair selection over exactly two hypotheses with
fresh ratings — three pairs, each drawn from the two hypotheses. -/
theorem selectTournamentPairs_two (h1 h2 : Hyp) (hne : h1.id ≠ h2.id)
    (rand : List Nat) :
    (selectTournamentPairs [h1, h2] (seedRankings [h1, h2] []) rand).length = 3
    ∧ ∀ p ∈ selectTournamentPairs [h1, h2] (seedRankings [h1, h2] []) rand,
        (p.1 = h1 ∨ p.1 = h2) ∧ (p.2 = h1 ∨ p.2 = h2) := by
  rw [seedRankings_pair h1 h2 hne]
  have hsel : selectTournamentPairs [h1, h2] [(h1.id, 1500), (h2.id, 1500)] rand
      = fyShuffle ((h1, h2) :: (drawRandomPairsGo 2 [h1, h2] rand).1 ++ [(h1, h2)])
          (drawRandomPairsGo 2 [h1, h2] rand).2 := by
    simp only [selectTournamentPairs, sortedTwo h1 h2 hne, drawRandomPairs]
    simp [adjacentPairs]
  rcases drawRandomPairsGo_two h1 h2 rand with hd | hd
  · rw [hsel, hd]
    constructor
    · simpa using
        (fyShuffle_three (h1, h2) (h1, h2) (h1, h2)
          ((drawRandomPairsGo 2 [h1, h2] rand).2)).1
    · intro p hp
      have hp' : p ∈ fyShuffle [(h1, h2), (h1, h2), (h1, h2)]
          ((drawRandomPairsGo 2 [h1, h2] rand).2) := by simpa using hp
      rcases (fyShuffle_three _ _ _ _).2 p hp' with rfl | rfl | rfl <;> simp
  · rw [hsel, hd]
    constructor
    · simpa using
        (fyShuffle_three (h1, h2) (h2, h1) (h1, h2)
          ((drawRandomPairsGo 2 [h1, h2] rand).2)).1
    · intro p hp
      have hp' : p ∈ fyShuffle [(h1, h2), (h2, h1), (h1, h2)]
          ((drawRandomPairsGo 2 [h1, h2] rand).2) := by simpa using hp
      rcases (fyShuffle_three _ _ _ _).2 p hp' with rfl | rfl | rfl <;> simp

/-- Shared helper: one Elo update on contained keys preserves the table
length and key membership. -/
theorem updateElo_table (tenPow : ℚ → ℚ) (r : RTable) (a b : String)
    (aWon : Bool) (c : ℚ) (id1 id2 : String)
    (ha : dictContains r a = true) (hb : dictContains r b = true)
    (h1 : dictContains r id1 = true) (h2 : dictContains r id2 = true) :
    (updateElo tenPow r a b aWon c).length = r.length
    ∧ dictContains (updateElo tenPow r a b aWon c) id1 = true
    ∧ dictContains (updateElo tenPow r a b aWon c) id2 = true := by
  unfold updateElo
  cases aWon <;>
    simp only [Bool.false_eq_true, if_false, if_true, reduceIte] <;>
    exact ⟨by
        rw [length_dictSet_of_contains _ _ _ (dictContains_dictSet_mono _ _ _ _ hb),
          length_dictSet_of_contains _ _ _ ha],
      dictContains_dictSet_mono _ _ _ _ (dictContains_dictSet_mono _ _ _ _ h1),
      dictContains_dictSet_mono _ _ _ _ (dictContains_dictSet_mono _ _ _ _ h2)⟩

/-- Shared helper: one match-loop step on pairs drawn from two contained ids
preserves the table length and key membership. -/
theorem tournamentStep_table (tenPow : ℚ → ℚ) (acc : RTable × Nat)
    (p : Hyp × Hyp) (content : Text) (id1 id2 : String)
    (hp1 : p.1.id = id1 ∨ p.1.id = id2) (hp2 : p.2.id = id1 ∨ p.2.id = id2)
    (h1 : dictContains acc.1 id1 = true) (h2 : dictContains acc.1 id2 = true) :
    (tournamentStep tenPow acc p content).1.length = acc.1.length
    ∧ dictContains (tournamentStep tenPow acc p content).1 id1 = true
    ∧ dictContains (tournamentStep tenPow acc p content).1 id2 = true := by
  simp only [tournamentStep]
  cases hw : (parseDebateResult content).1 with
  | none => exact ⟨rfl, h1, h2⟩
  | some w =>
    have ha : dictContains acc.1 p.1.id = true := by rcases hp1 with h | h <;> rw [h] <;> assumption
    have hb : dictContains acc.1 p.2.id = true := by rcases hp2 with h | h <;> rw [h] <;> assumption
    exact updateElo_table tenPow acc.1 p.1.id p.2.id _ _ id1 id2 ha hb h1 h2

/-- Shared helper: the match loop preserves the table length and key
membership when every pair is drawn from two contained ids. -/
theorem foldl_tournamentStep_table (tenPow : ℚ → ℚ) (debate : Hyp → Hyp → Text)
    (id1 id2 : String) :
    ∀ (ps : List (Hyp × Hyp)) (acc : RTable × Nat),
      (∀ p ∈ ps, (p.1.id = id1 ∨ p.1.id = id2) ∧ (p.2.id = id1 ∨ p.2.id = id2)) →
      dictContains acc.1 id1 = true → dictContains acc.1 id2 = true →
      (ps.foldl (fun acc p => tournamentStep tenPow acc p (debate p.1 p.2)) acc).1.length
          = acc.1.length
      ∧ dictContains
          (ps.foldl (fun acc p => tournamentStep tenPow acc p (debate p.1 p.2)) acc).1 id1
          = true
      ∧ dictContains
          (ps.foldl (fun acc p => tournamentStep tenPow acc p (debate p.1 p.2)) acc).1 id2
          = true := by
  intro ps
  induction ps with
  | nil => exact fun acc _ h1 h2 => ⟨rfl, h1, h2⟩
  | cons p rest ih =>
    intro acc hps h1 h2
    have hp := hps p (by simp)
    have hstep := tournamentStep_table tenPow acc p (debate p.1 p.2) id1 id2
      hp.1 hp.2 h1 h2
    have hrest := ih (tournamentStep tenPow acc p (debate p.1 p.2))
      (fun q hq => hps q (by simp [hq])) hstep.2.1 hstep.2.2
    exact ⟨by rw [List.foldl_cons, hrest.1, hstep.1],
      by rw [List.foldl_cons]; exact hrest.2.1,
      by rw [List.foldl_cons]; exact hrest.2.2⟩

/-- Shared helper: one match-loop step increments the played count by at
most one. -/
theorem tournamentStep_played_le (tenPow : ℚ → ℚ) (acc : RTable × Nat)
    (p : Hyp × Hyp) (content : Text) :
    (tournamentStep tenPow acc p content).2 ≤ acc.2 + 1 := by
  simp only [tournamentStep]
  cases hw : (parseDebateResult content).1 with
  | none => exact Nat.le_succ _
  | some w => exact Nat.le_refl _

/-- Shared helper: the match loop plays at most one match per pair. -/
theorem foldl_tournamentStep_played_le (tenPow : ℚ → ℚ)
    (debate : Hyp → Hyp → Text) :
    ∀ (ps : List (Hyp × Hyp)) (acc : RTable × Nat),
      (ps.foldl (fun acc p => tournamentStep tenPow acc p (debate p.1 p.2)) acc).2
        ≤ acc.2 + ps.length := by
  intro ps
  induction ps with
  | nil => exact fun acc => Nat.le_refl _
  | cons p rest ih =>
    intro acc
    calc (rest.foldl (fun acc p => tournamentStep tenPow acc p (debate p.1 p.2))
            (tournamentStep tenPow acc p (debate p.1 p.2))).2
        ≤ (tournamentStep tenPow acc p (debate p.1 p.2)).2 + rest.length := ih _
      _ ≤ acc.2 + 1 + rest.length :=
          Nat.add_le_add_right (tournamentStep_played_le tenPow acc p (debate p.1 p.2)) _
      _ = acc.2 + (p :: rest).length := by simp; omega

/-- Shared helper: when no debate text yields a winner, the match loop is the
identity. -/
theorem foldl_tournamentStep_none (tenPow : ℚ → ℚ) (debate : Hyp → Hyp → Text)
    (hnone : ∀ a b, (parseDebateResult (debate a b)).1 = none) :
    ∀ (ps : List (Hyp × Hyp)) (acc : RTable × Nat),
      ps.foldl (fun acc p => tournamentStep tenPow acc p (debate p.1 p.2)) acc = acc := by
  intro ps
  induction ps with
  | nil => exact fun _ => rfl
  | cons p rest ih =>
    intro acc
    rw [List.foldl_cons, tournamentStep_no_winner _ _ _ _ (hnone p.1 p.2), ih]

/-- C1 (amended): a tournament round over exactly two hypotheses with fresh
ratings selects exactly *three* candidate matches — each of the three pairing
strategies contributes the single unordered pair once — leaves a rating table
with exactly 2 entries, and plays at most 3 matches (0, with the table still
freshly seeded at 1500, when no debate text has a parseable winner); this
holds for every random stream and every debate oracle. -/
theorem tournament_round_two_hypotheses (h1 h2 : Hyp) (hne : h1.id ≠ h2.id)
    (tenPow : ℚ → ℚ) (debate : Hyp → Hyp → Text) (rand : List Nat) :
    (selectTournamentPairs [h1, h2] (seedRankings [h1, h2] []) rand).length = 3
    ∧ (rankingActor tenPow [h1, h2] [] 0 debate rand).rankings.length = 2
    ∧ (rankingActor tenPow [h1, h2] [] 0 debate rand).matchesPlayed ≤ 3
    ∧ ((∀ a b, (parseDebateResult (debate a b)).1 = none) →
        (rankingActor tenPow [h1, h2] [] 0 debate rand).matchesPlayed = 0
        ∧ (rankingActor tenPow [h1, h2] [] 0 debate rand).rankings
            = [(h1.id, 1500), (h2.id, 1500)]) := by
  obtain ⟨hlen, hmem⟩ := selectTournamentPairs_two h1 h2 hne rand
  have hseed := seedRankings_pair h1 h2 hne
  have hact : rankingActor tenPow [h1, h2] [] 0 debate rand
      = { rankings := ((selectTournamentPairs [h1, h2] (seedRankings [h1, h2] []) rand).take 10).foldl
            (fun acc p => tournamentStep tenPow acc p (debate p.1 p.2))
            (seedRankings [h1, h2] [], 0) |>.1,
          totalMatches := 0 + (((selectTournamentPairs [h1, h2] (seedRankings [h1, h2] []) rand).take 10).foldl
            (fun acc p => tournamentStep tenPow acc p (debate p.1 p.2))
            (seedRankings [h1, h2] [], 0)).2,
          matchesPlayed := (((selectTournamentPairs [h1, h2] (seedRankings [h1, h2] []) rand).take 10).foldl
            (fun acc p => tournamentStep tenPow acc p (debate p.1 p.2))
            (seedRankings [h1, h2] [], 0)).2 } := rfl
  have hcont1 : dictContains (seedRankings [h1, h2] []) h1.id = true := by
    rw [hseed]; simp [dictContains]
  have hcont2 : dictContains (seedRankings [h1, h2] []) h2.id = true := by
    rw [hseed]; simp [dictContains]
  have hids : ∀ p ∈ (selectTournamentPairs [h1, h2] (seedRankings [h1, h2] []) rand).take 10,
      (p.1.id = h1.id ∨ p.1.id = h2.id) ∧ (p.2.id = h1.id ∨ p.2.id = h2.id) := by
    intro p hp
    have := hmem p (List.mem_of_mem_take hp)
    rcases this with ⟨hl | hl, hr | hr⟩ <;> rw [hl, hr] <;> simp
  refine ⟨hlen, ?_, ?_, ?_⟩
  · rw [hact]
    have := foldl_tournamentStep_table tenPow debate h1.id h2.id
      ((selectTournamentPairs [h1, h2] (seedRankings [h1, h2] []) rand).take 10)
      (seedRankings [h1, h2] [], 0) hids hcont1 hcont2
    rw [this.1, hseed]
    rfl
  · rw [hact]
    calc (((selectTournamentPairs [h1, h2] (seedRankings [h1, h2] []) rand).take 10).foldl
            (fun acc p => tournamentStep tenPow acc p (debate p.1 p.2))
            (seedRankings [h1, h2] [], 0)).2
        ≤ 0 + ((selectTournamentPairs [h1, h2] (seedRankings [h1, h2] []) rand).take 10).length :=
          foldl_tournamentStep_played_le tenPow debate _ _
      _ ≤ (selectTournamentPairs [h1, h2] (seedRankings [h1, h2] []) rand).length := by
          simp [List.length_take_le]
      _ = 3 := hlen
  · intro hnone
    rw [hact, foldl_tournamentStep_none tenPow debate hnone]
    exact ⟨rfl, hseed⟩

/-- C1 counterexample: with two fresh hypotheses the selection yields three
candidate matches, not one, and with an all-parseable debate oracle three
matches are played, contradicting `matches_played ≤ 1`.  (The rating table
does have exactly 2 entries.) -/
theorem tournament_round_two_hypotheses_cex :
    (selectTournamentPairs [{ id := "h1" }, { id := "h2" }]
        (seedRankings [{ id := "h1" }, { id := "h2" }] []) []).length = 3
    ∧ (rankingActor (fun _ => 1) [{ id := "h1" }, { id := "h2" }] [] 0
        (fun _ _ => "WINNER: A\nCONFIDENCE: 80".data) []).matchesPlayed = 3
    ∧ ¬ ((rankingActor (fun _ => 1) [{ id := "h1" }, { id := "h2" }] [] 0
        (fun _ _ => "WINNER: A\nCONFIDENCE: 80".data) []).matchesPlayed ≤ 1) :=
  ⟨by decide, by decide, by decide⟩

/-- Witness for C1 (amended) at two concrete hypotheses, a concrete random
stream, and a debate oracle with no parseable winner. -/
theorem tournament_round_two_hypotheses_witness :
    (selectTournamentPairs [{ id := "a" }, { id := "b" }]
        (seedRankings [{ id := "a" }, { id := "b" }] []) [3, 1, 4]).length = 3
    ∧ (rankingActor (fun _ => 1) [{ id := "a" }, { id := "b" }] [] 0
        (fun _ _ => "no winner".data) [3, 1, 4]).matchesPlayed = 0
    ∧ (rankingActor (fun _ => 1) [{ id := "a" }, { id := "b" }] [] 0
        (fun _ _ => "no winner".data) [3, 1, 4]).rankings
      = [("a", 1500), ("b", 1500)] := by
  have h := tournament_round_two_hypotheses { id := "a" } { id := "b" } (by decide)
    (fun _ => 1) (fun _ _ => "no winner".data) [3, 1, 4]
  have h4 := h.2.2.2 (fun _ _ => by decide)
  exact ⟨h.1, h4.1, h4.2⟩

/-! ## C5 — at most one similarity edge per unordered pair -/

/-- Two hypothesis pairs name the same unordered id pair. -/
def samePairIds (p q : Hyp × Hyp) : Prop :=
  (p.1.id = q.1.id ∧ p.2.id = q.2.id) ∨ (p.1.id = q.2.id ∧ p.2.id = q.1.id)

/-- Shared helper: `edgeMatches` as a proposition. -/
theorem edgeMatches_eq_false_iff (f : Edge) (a b : String) :
    edgeMatches f a b = false
      ↔ ¬ ((f.source = a ∧ f.target = b) ∨ (f.source = b ∧ f.target = a)) := by
  simp [edgeMatches, not_or, Decidable.not_and_iff_or_not]

/-- Shared helper: `hasDupPair` is the pairwise no-duplicate condition. -/
theorem hasDupPair_eq_false_iff (l : List Edge) :
    hasDupPair l = false
      ↔ l.Pairwise (fun e f => edgeMatches f e.source e.target = false) := by
  induction l with
  | nil => simp [hasDupPair]
  | cons e rest ih =>
    simp only [hasDupPair, Bool.or_eq_false_iff, List.pairwise_cons, ih,
      List.any_eq_false, Bool.not_eq_true]

/-- The edges the proximity round appends, one per selected pair that has no
existing edge and whose comparison text parses (proof-side restatement of the
actor's fold). -/
def newProxEdges (edges : List Edge) (simText : Hyp → Hyp → Text) :
    List (Hyp × Hyp) → List Edge
  | [] => []
  | p :: rest =>
    if edgeExists edges p.1.id p.2.id then newProxEdges edges simText rest
    else
      match parseSimilarityResult (simText p.1 p.2) with
      | some s => { source := p.1.id, target := p.2.id, similarity := s }
          :: newProxEdges edges simText rest
      | none => newProxEdges edges simText rest

/-- Shared helper: the actor's fold equals append-of-new-edges. -/
theorem proxFold_eq (edges : List Edge) (simText : Hyp → Hyp → Text) :
    ∀ (ps : List (Hyp × Hyp)) (l : List Edge) (n : Nat),
      (ps.foldl
        (fun (acc : List Edge × Nat) p =>
          if edgeExists edges p.1.id p.2.id then acc
          else
            match parseSimilarityResult (simText p.1 p.2) with
            | some s =>
              (acc.1 ++ [{ source := p.1.id, target := p.2.id, similarity := s }],
                acc.2 + 1)
            | none => acc)
        (l, n)).1 = l ++ newProxEdges edges simText ps := by
  intro ps
  induction ps with
  | nil => simp [newProxEdges]
  | cons p rest ih =>
    intro l n
    rw [List.foldl_cons]
    by_cases he : edgeExists edges p.1.id p.2.id = true
    · simp only [newProxEdges, he, if_true, reduceIte]
      exact ih l n
    · simp only [newProxEdges, Bool.not_eq_true] at he ⊢
      rw [he]
      simp only [Bool.false_eq_true, if_false]
      rcases hs : parseSimilarityResult (simText p.1 p.2) with _ | s
      · simpa using ih l n
      · have h2 := ih (l ++ [{ source := p.1.id, target := p.2.id, similarity := s }]) (n + 1)
        rw [List.append_assoc, List.singleton_append] at h2
        simpa using h2

/-- Shared helper: every new edge comes from a selected pair with no existing
edge. -/
theorem mem_newProxEdges (edges : List Edge) (simText : Hyp → Hyp → Text) :
    ∀ (ps : List (Hyp × Hyp)) (f : Edge), f ∈ newProxEdges edges simText ps →
      ∃ p ∈ ps, f.source = p.1.id ∧ f.target = p.2.id
        ∧ edgeExists edges p.1.id p.2.id = false := by
  intro ps
  induction ps with
  | nil => intro f h; simp [newProxEdges] at h
  | cons p rest ih =>
    intro f h
    unfold newProxEdges at h
    by_cases he : edgeExists edges p.1.id p.2.id = true
    · rw [if_pos he] at h
      obtain ⟨q, hq, hf⟩ := ih f h
      exact ⟨q, by simp [hq], hf⟩
    · rw [if_neg he] at h
      rcases hs : parseSimilarityResult (simText p.1 p.2) with _ | s
      · rw [hs] at h
        obtain ⟨q, hq, hf⟩ := ih f h
        exact ⟨q, by simp [hq], hf⟩
      · rw [hs] at h
        rcases List.mem_cons.mp h with rfl | h'
        · exact ⟨p, by simp, rfl, rfl, Bool.not_eq_true _ ▸ he⟩
        · obtain ⟨q, hq, hf⟩ := ih f h'
          exact ⟨q, by simp [hq], hf⟩

/-- Shared helper: pairwise-distinct unordered pairs produce pairwise
non-duplicate new edges. -/
theorem pairwise_newProxEdges (edges : List Edge) (simText : Hyp → Hyp → Text) :
    ∀ (ps : List (Hyp × Hyp)),
      ps.Pairwise (fun p q => ¬ samePairIds p q) →
      (newProxEdges edges simText ps).Pairwise
        (fun e f => edgeMatches f e.source e.target = false) := by
  intro ps
  induction ps with
  | nil => intro _; simp [newProxEdges]
  | cons p rest ih =>
    intro hpw
    obtain ⟨hp, hrest⟩ := List.pairwise_cons.mp hpw
    unfold newProxEdges
    by_cases he : edgeExists edges p.1.id p.2.id = true
    · rw [if_pos he]
      exact ih hrest
    · rw [if_neg he]
      rcases hs : parseSimilarityResult (simText p.1 p.2) with _ | s
    
      · exact ih hrest
      · refine List.pairwise_cons.mpr ⟨?_, ih hrest⟩
        intro f hf
        obtain ⟨q, hq, hfs, hft, _⟩ := mem_newProxEdges edges simText rest f hf
        rw [edgeMatches_eq_false_iff, hfs, hft]
        intro hcontra
        exact hp q hq (by
          rcases hcontra with ⟨hx, hy⟩ | ⟨hx, hy⟩
          · exact Or.inl ⟨hx.symm, hy.symm⟩
          · exact Or.inr ⟨hy.symm, hx.symm⟩)

/-- Shared helper: selected pairs are drawn from the hypothesis list. -/
theorem mem_comparisonPairsGo (edges : List Edge) :
    ∀ (l : List Hyp) (p : Hyp × Hyp), p ∈ comparisonPairsGo edges l →
      p.1 ∈ l ∧ p.2 ∈ l := by
  intro l
  induction l with
  | nil => intro p h; simp [comparisonPairsGo] at h
  | cons h rest ih =>
    intro p hp
    unfold comparisonPairsGo at hp
    rcases List.mem_append.mp hp with hb | ht
    · obtain ⟨h2, hh2, rfl⟩ := List.mem_map.mp hb
      have hh2' := List.mem_of_mem_filter hh2
      exact ⟨by simp, by simp [hh2']⟩
    · obtain ⟨hp1, hp2⟩ := ih p ht
      exact ⟨by simp [hp1], by simp [hp2]⟩

/-- Shared helper: with pairwise-distinct hypothesis ids, the nested pairing
loop yields pairwise-distinct unordered id pairs. -/
theorem pairwise_comparisonPairsGo (edges : List Edge) :
    ∀ (l : List Hyp), (l.map Hyp.id).Nodup →
      (comparisonPairsGo edges l).Pairwise (fun p q => ¬ samePairIds p q) := by
  intro l
  induction l with
  | nil => intro _; simp [comparisonPairsGo]
  | cons h rest ih =>
    intro hnd
    rw [List.map_cons, List.nodup_cons] at hnd
    obtain ⟨hid, hrest⟩ := hnd
    unfold comparisonPairsGo
    apply List.pairwise_append.mpr
    refine ⟨?_, ih hrest, ?_⟩
    · rw [List.pairwise_map]
      have hfil : (rest.filter fun h2 => !edgeExists edges h.id h2.id).Pairwise
          (fun x y => x.id ≠ y.id) := by
        have hr : rest.Pairwise (fun x y => x.id ≠ y.id) := by
          simpa [List.Nodup, List.pairwise_map] using hrest
        exact hr.sublist (List.filter_sublist _)
      apply List.Pairwise.imp_of_mem ?_ hfil
      intro x y hx hy hxy
      have hyh : y.id ≠ h.id := by
        intro hc
        exact hid (hc ▸ List.mem_map_of_mem Hyp.id
          (List.mem_of_mem_filter hy))
      intro hsp
      rcases hsp with ⟨_, hids⟩ | ⟨hids1, _⟩
      · exact hxy hids
      · exact hyh hids1.symm
    · intro p hb q ht
      obtain ⟨x, hx, rfl⟩ := List.mem_map.mp hb
      obtain ⟨hq1, hq2⟩ := mem_comparisonPairsGo edges rest q ht
      have hq1h : q.1.id ≠ h.id := by
        intro hc
        exact hid (hc ▸ List.mem_map_of_mem Hyp.id hq1)
      have hq2h : q.2.id ≠ h.id := by
        intro hc
        exact hid (hc ▸ List.mem_map_of_mem Hyp.id hq2)
      intro hsp
      rcases hsp with ⟨h1get, _⟩ | ⟨h1get, _⟩
      · exact hq1h h1get.symm
      · exact hq2h h1get.symm

/-- Shared helper: with pairwise-distinct hypothesis ids, the full pair
selection yields pairwise-distinct unordered id pairs. -/
theorem pairwise_selectComparisonPairs (hyps : List Hyp) (edges : List Edge)
    (hids : (hyps.map Hyp.id).Nodup) :
    (selectComparisonPairs hyps edges).Pairwise (fun p q => ¬ samePairIds p q) := by
  unfold selectComparisonPairs
  apply pairwise_comparisonPairsGo
  have hperm := List.perm_insertionSort
    (fun a b => edgeDegree edges a.id ≤ edgeDegree edges b.id) hyps
  exact ((hperm.map Hyp.id).nodup_iff).mpr hids

/-- Shared helper: the proximity round's output edge list is the input list
followed by the new edges of the capped pair selection. -/
theorem proximityActor_edges_eq (hyps : List Hyp) (es : List Edge)
    (simText : Hyp → Hyp → Text) :
    (proximityActor hyps es simText).1
      = es ++ newProxEdges es simText ((selectComparisonPairs hyps es).take 20) := by
  simp only [proximityActor]
  rw [proxFold_eq es simText]
  simp

/-- C5 (amended): provided the hypotheses have pairwise-distinct identifiers
and the starting edge list contains no two edges for the same unordered pair,
the Similarity Graph Builder — run once, or twice in succession with the same
hypothesis set — never yields two edges connecting the same unordered pair:
the existing-edge check guards every appended edge, and distinct selected
pairs name distinct unordered id pairs. -/
theorem proximity_no_duplicate_pairs (hyps : List Hyp) (edges : List Edge)
    (simText : Hyp → Hyp → Text)
    (hids : (hyps.map Hyp.id).Nodup) (hdup : hasDupPair edges = false) :
    hasDupPair (proximityActor hyps edges simText).1 = false
    ∧ hasDupPair (proximityActor hyps
        (proximityActor hyps edges simText).1 simText).1 = false := by
  have main : ∀ (es : List Edge), hasDupPair es = false →
      hasDupPair (proximityActor hyps es simText).1 = false := by
    intro es hes
    rw [proximityActor_edges_eq, hasDupPair_eq_false_iff]
    apply List.pairwise_append.mpr
    refine ⟨(hasDupPair_eq_false_iff es).mp hes, ?_, ?_⟩
    · exact pairwise_newProxEdges es simText _
        ((pairwise_selectComparisonPairs hyps es hids).sublist
          (List.take_sublist 20 _))
    · intro e he f hf
      obtain ⟨q, _, hfs, hft, hne⟩ := mem_newProxEdges es simText _ f hf
      have hee : edgeMatches e q.1.id q.2.id = false := by
        have := List.any_eq_false.mp hne e he
        simpa using this
      rw [edgeMatches_eq_false_iff] at hee
      rw [edgeMatches_eq_false_iff, hfs, hft]
      intro hc
      rcases hc with ⟨hc1, hc2⟩ | ⟨hc1, hc2⟩
      · exact hee (Or.inl ⟨hc1.symm, hc2.symm⟩)
      · exact hee (Or.inr ⟨hc2.symm, hc1.symm⟩)
  exact ⟨main edges hdup, main _ (main edges hdup)⟩

/-- Witness for C5 (amended): two fresh hypotheses compared once and then
again with the same set. -/
theorem proximity_no_duplicate_pairs_witness :
    hasDupPair (proximityActor [{ id := "a" }, { id := "b" }] []
        (fun _ _ => "OVERALL_SIMILARITY: 0.5".data)).1 = false
    ∧ hasDupPair (proximityActor [{ id := "a" }, { id := "b" }]
        (proximityActor [{ id := "a" }, { id := "b" }] []
          (fun _ _ => "OVERALL_SIMILARITY: 0.5".data)).1
        (fun _ _ => "OVERALL_SIMILARITY: 0.5".data)).1 = false :=
  proximity_no_duplicate_pairs [{ id := "a" }, { id := "b" }] []
    (fun _ _ => "OVERALL_SIMILARITY: 0.5".data) (by decide) (by decide)

/-- C5 counterexample: the builder does not deduplicate a starting edge list
that already holds two edges for the same unordered pair — run over an empty
hypothesis set it returns the duplicated list unchanged, so "for every
starting edge list" the output can hold two edges for one unordered pair. -/
theorem proximity_duplicate_pair_cex :
    hasDupPair (proximityActor []
      [{ source := "x", target := "y", similarity := 1/2 },
        { source := "x", target := "y", similarity := 1/2 }] (fun _ _ => [])).1
      = true := by decide
